import Mathlib

/-!
Verification of the streaming core of the seclai JavaScript SDK
(`src/client.ts`): the SSE frame parser `createSseParser`, the abort
coordinator `anySignal`, and the streaming run controller
`runStreamingAgentAndWait`.

Strings fed to the parser are modelled at the character-list level
(`List Char`); `String`-level wrappers mirror the TypeScript signatures.
-/

namespace Seclai

/-- Message type produced by the SSE parser (client.ts `SseMessage`):
`{event?: string; data?: string}`; `dispatch` always sets `data` and sets
`event` only when the `eventName` variable is not `undefined`. -/
structure SseMessage where
  event : Option String
  data  : String
deriving Repr, DecidableEq

/-- State owned by one `createSseParser` instance: the raw text buffer
holding the incomplete trailing line, the pending event name and the
pending list of data-line values. -/
structure SseParserState where
  buffer    : List Char
  eventName : Option String
  dataLines : List String
deriving Repr, DecidableEq

/-- Fresh parser state: `buffer = ""`, `eventName = undefined`,
`dataLines = []`. -/
def initState : SseParserState := ⟨[], none, []⟩

/-- JavaScript truthiness of the `eventName : string | undefined`
variable as used in the guard `!eventName`: both `undefined` and the
empty string are falsy. -/
def jsFalsyStr : Option String → Bool
  | none => true
  | some s => s = ""

/-- Embeds `dispatch()` of `createSseParser`: if `!eventName` and
`dataLines` is empty, do nothing (the pending fields are kept as they
are); otherwise emit one message whose `data` is the newline-join of
`dataLines` and whose `event` is the pending event name, then clear
both. Returns the new `(eventName, dataLines)` pair and the emitted
messages (zero or one). -/
def dispatch (ev : Option String) (ds : List String) :
    Option String × List String × List SseMessage :=
  if jsFalsyStr ev && ds.isEmpty then (ev, ds, [])
  else (none, [], [⟨ev, String.intercalate "\n" ds⟩])

/-- Embeds `if (line.endsWith("\r")) line = line.slice(0, -1)`: strip
one trailing carriage return from an extracted line. -/
def stripCR (line : List Char) : List Char :=
  if line.getLast? = some '\r' then line.dropLast else line

/-- Embeds the per-line part of the `feed` loop body of
`createSseParser`, acting on one extracted line (the text before the
`\n`): strip one trailing `\r`; an empty line dispatches; a line
starting with `:` is a comment and is ignored; otherwise split at the
first `:` into field and value (a line without `:` is a field with
empty value), strip at most one leading space from the value, and
record the value for the `event` and `data` fields, ignoring all other
field names. -/
def processLine (line0 : List Char) (ev : Option String) (ds : List String) :
    Option String × List String × List SseMessage :=
  let line := stripCR line0
  if line.isEmpty then dispatch ev ds
  else if line.head? = some ':' then (ev, ds, [])
  else
    let field := line.takeWhile (fun c => c ≠ ':')
    let rawValue := (line.dropWhile (fun c => c ≠ ':')).drop 1
    let value := if rawValue.head? = some ' ' then rawValue.drop 1 else rawValue
    if field = "event".data then (some (String.mk value), ds, [])
    else if field = "data".data then (ev, ds ++ [String.mk value], [])
    else (ev, ds, [])

/-- Splits a character buffer into its complete lines (the segments
before each `\n`, in order) and the trailing remainder after the last
`\n`. This is the cumulative effect of the `feed` loop's repeated
`indexOf("\n")` / `slice` steps: every complete line is extracted from
the front, and the newline-free tail stays buffered. -/
def splitLines : List Char → List (List Char) × List Char
  | [] => ([], [])
  | c :: cs =>
    if c = '\n' then ([] :: (splitLines cs).1, (splitLines cs).2)
    else
      match splitLines cs with
      | ([], r) => ([], c :: r)
      | (l :: ls, r) => ((c :: l) :: ls, r)

/-- Processes a list of extracted complete lines in order, threading the
pending `(eventName, dataLines)` state and concatenating the emitted
messages. -/
def processLines (lines : List (List Char)) (ev : Option String) (ds : List String) :
    Option String × List String × List SseMessage :=
  match lines with
  | [] => (ev, ds, [])
  | l :: ls =>
    let s1 := processLine l ev ds
    let s2 := processLines ls s1.1 s1.2.1
    (s2.1, s2.2.1, s1.2.2 ++ s2.2.2)

/-- Embeds `feed(textChunk)` of `createSseParser`: append the chunk to
the buffer, then repeatedly extract and process every complete
`\n`-terminated line, leaving the incomplete trailing line buffered.
Returns the new parser state and the messages emitted during the call,
in order. -/
def feed (st : SseParserState) (chunk : String) : SseParserState × List SseMessage :=
  let sp := splitLines (st.buffer ++ chunk.data)
  let pr := processLines sp.1 st.eventName st.dataLines
  (⟨sp.2, pr.1, pr.2.1⟩, pr.2.2)

/-- Embeds `end` of `createSseParser`, which is the `dispatch` function
itself: it dispatches the pending `(eventName, dataLines)` fields and
does not touch the raw buffer (an unterminated trailing line is never
parsed by `end`). -/
def sseEnd (st : SseParserState) : SseParserState × List SseMessage :=
  let d := dispatch st.eventName st.dataLines
  (⟨st.buffer, d.1, d.2.1⟩, d.2.2)

/-- Feeds a list of chunks one by one, concatenating the emitted
messages in order. -/
def feedMany (st : SseParserState) (chunks : List String) :
    SseParserState × List SseMessage :=
  match chunks with
  | [] => (st, [])
  | c :: cs =>
    let s1 := feed st c
    let s2 := feedMany s1.1 cs
    (s2.1, s1.2 ++ s2.2)

/-- A full parser session: create a fresh parser, feed the given chunks
in order, then call `end()` once; the result is the ordered list of all
emitted messages. -/
def runParser (chunks : List String) : List SseMessage :=
  let s := feedMany initState chunks
  s.2 ++ (sseEnd s.1).2

/-- Domain payload of an agent run as consulted by the controller
(`AgentRunResponse`): only the `status` field is ever read by the core,
and only string-valued statuses occur in this development, so the
payload is modelled by that one optional field. -/
structure AgentRun where
  status : Option String
deriving Repr, DecidableEq

/-- Errors thrown by `runStreamingAgentAndWait` (errors.ts classes plus
the two `SeclaiError` messages built inline), carrying the fields the
constructors store. `V` is the type of decoded validation payloads
(`HTTPValidationError`), opaque to the core. `jsonDecodeFailed` stands
for the rejection of the host `response.json()` call on the non-SSE
path. -/
inductive RunError (V : Type) where
  | validation (statusCode : Nat) (method url : String)
      (responseText : Option String) (validationError : Option V)
  | statusError (statusCode : Nat) (method url : String) (responseText : Option String)
  | configuration
  | jsonDecodeFailed
  | streamEnded
  | timeout (timeoutMs : Nat)
deriving Repr, DecidableEq

/-- Model of the fetch `Response` as consumed by
`runStreamingAgentAndWait`: status code; the `content-type` header with
`""` substituted for a missing header, as the code does; the outcomes
of the host `response.clone().text()` and `.json()` calls used on error
statuses (`none` when the host decode rejects — `safeText` / `safeJson`
turn that rejection into `undefined`); the decoded body for the JSON
short-circuit path (`none` = `response.json()` rejects); whether
`response.body` is available; and the decoded text chunks the body
reader yields, in order. -/
structure MResponse (V : Type) where
  status : Nat
  contentType : String
  textResult : Option String
  validationJson : Option V
  jsonBody : Option AgentRun
  hasBody : Bool
  chunks : List String
deriving Repr, DecidableEq

/-- The `Response.ok` property of the fetch API: status in 200..299. -/
def responseOk (status : Nat) : Bool :=
  200 ≤ status && status ≤ 299

/-- Containment scan over lists: does `sub` occur contiguously? This is
the semantics of JavaScript `String.prototype.includes`. -/
def listContains [DecidableEq α] (sub : List α) : List α → Bool
  | [] => sub.isEmpty
  | c :: cs => sub.isPrefixOf (c :: cs) || listContains sub cs

/-- JavaScript `contentType.includes(sub)` on strings. -/
def strIncludes (s sub : String) : Bool :=
  listContains sub.data s.data

/-- JavaScript truthiness of `(lastSeen as any).status` for the
string-valued statuses of this development: present and non-empty. -/
def statusTruthy (p : AgentRun) : Bool :=
  match p.status with
  | none => false
  | some s => s ≠ ""

/-- Embeds the `onMessage` callback installed by
`runStreamingAgentAndWait`, acting on the `(final, lastSeen)` pair: a
falsy (empty or absent) `data` is ignored outright; for `init` and
`done` events the data is decoded by the host `JSON.parse`, modelled by
the `decode` argument (`none` = parse exception, swallowed by the empty
`catch`); a successful decode always updates `lastSeen` and
additionally overwrites `final` when the event is `done`. -/
def handleMsg (decode : String → Option AgentRun)
    (st : Option AgentRun × Option AgentRun) (msg : SseMessage) :
    Option AgentRun × Option AgentRun :=
  if msg.data = "" then st
  else if msg.event = some "init" || msg.event = some "done" then
    match decode msg.data with
    | none => st
    | some parsed =>
      (if msg.event = some "done" then some parsed else st.1, some parsed)
  else st

/-- Embeds the read loop `while (!final) { const {value, done} = await
reader.read(); if (done) break; if (value) parser.feed(...) }` over the
modelled chunk list: before each read the loop re-checks `final`; a
read either ends the stream (chunk list exhausted) or yields one chunk,
which is fed to the parser, every emitted message going through the
callback in order. Returns the parser state, the `(final, lastSeen)`
pair, and the chunks never read. -/
def readLoop (decode : String → Option AgentRun) :
    List String → SseParserState → Option AgentRun × Option AgentRun →
    SseParserState × (Option AgentRun × Option AgentRun) × List String
  | [], pst, st => (pst, st, [])
  | c :: cs, pst, st =>
    if st.1.isSome then (pst, st, c :: cs)
    else
      let f := feed pst c
      readLoop decode cs f.1 (f.2.foldl (handleMsg decode) st)

/-- The streaming phase of `runStreamingAgentAndWait` after the headers
are handled: run the read loop from a fresh parser and `(undefined,
undefined)` tracking state, then call `parser.end()`, feeding any
flushed message through the same callback; returns the final `(final,
lastSeen)` pair. -/
def streamState (decode : String → Option AgentRun) (chunks : List String) :
    Option AgentRun × Option AgentRun :=
  let r := readLoop decode chunks initState (none, none)
  (sseEnd r.1).2.foldl (handleMsg decode) r.2.1

/-- Embeds the resolution step of `runStreamingAgentAndWait` (after the
read loop and final flush): a captured `done` payload wins; else a
last-seen payload whose `status` is truthy and not `"pending"` is
accepted; else the stream-ended `SeclaiError` is thrown. -/
def resolveStream {V : Type} (st : Option AgentRun × Option AgentRun) :
    Except (RunError V) AgentRun :=
  match st.1 with
  | some f => .ok f
  | none =>
    match st.2 with
    | some p =>
      if statusTruthy p && p.status != some "pending" then .ok p
      else .error .streamEnded
    | none => .error .streamEnded

/-- Embeds the body of the `try` block of `runStreamingAgentAndWait`
for an already-received response: a non-ok status produces the
validation error (422) or the generic status error, each carrying the
best-effort decoded text and, for 422, the best-effort validation
payload; an ok JSON response is decoded and returned directly; a
missing streaming body is a configuration error; otherwise the SSE
stream is consumed and resolved. -/
def tryStreaming {V : Type} (decode : String → Option AgentRun) (url : String)
    (resp : MResponse V) : Except (RunError V) AgentRun :=
  if !responseOk resp.status then
    if resp.status = 422 then
      .error (.validation resp.status "POST" url resp.textResult resp.validationJson)
    else
      .error (.statusError resp.status "POST" url resp.textResult)
  else if strIncludes resp.contentType "application/json" then
    match resp.jsonBody with
    | some v => .ok v
    | none => .error .jsonDecodeFailed
  else if !resp.hasBody then .error .configuration
  else resolveStream (streamState decode resp.chunks)

/-- Outcome of one full `runStreamingAgentAndWait` invocation: the
settled result together with whether the `finally` step cancelled the
timeout timer (`clearTimeout(timeoutId)`). -/
structure RunOutcome (V : Type) where
  result : Except (RunError V) AgentRun
  timerCleared : Bool
deriving Repr

/-- Embeds `opts?.timeoutMs ?? 60_000`: the effective timeout budget. -/
def resolveTimeoutMs (timeoutMs : Option Nat) : Nat :=
  timeoutMs.getD 60000

/-- Embeds `runStreamingAgentAndWait` around the `try` body: `timedOut`
is the local flag set by the timeout callback, true exactly when the
timeout branch of the combined signal fired during the operation. On
any failure the `catch` block replaces the error with the timeout
`SeclaiError` naming `timeoutMs` when `timedOut` is set, and rethrows
it unchanged otherwise; a success is returned as is; the `finally`
block clears the timer on every path. -/
def runStreamingAgentAndWait {V : Type} (decode : String → Option AgentRun)
    (url : String) (timeoutMs : Nat) (timedOut : Bool) (resp : MResponse V) :
    RunOutcome V :=
  let r :=
    match tryStreaming decode url resp with
    | .ok v => Except.ok v
    | .error e => if timedOut then .error (.timeout timeoutMs) else .error e
  ⟨r, true⟩

/-- Model of an `AbortSignal`: the time at which it triggers (`none` =
never), on a clock where time `0` is the moment `anySignal` combines
the signals — an input already aborted at combination time has trigger
time `0`. Triggering is monotone: once aborted, aborted forever. -/
structure MSignal where
  triggerTime : Option Nat
deriving Repr, DecidableEq

/-- Whether a signal is aborted at time `t`. -/
def MSignal.abortedAt (s : MSignal) (t : Nat) : Bool :=
  match s.triggerTime with
  | none => false
  | some t0 => t0 ≤ t

/-- The `aborted` property as read during combination (time `0`). -/
def MSignal.aborted (s : MSignal) : Bool :=
  s.abortedAt 0

/-- Minimum of two optional trigger times, `none` meaning never. -/
def minTime : Option Nat → Option Nat → Option Nat
  | none, b => b
  | some a, none => some a
  | some a, some b => some (min a b)

/-- Embeds the `for (const s of present)` loop of `anySignal`: an input
already aborted makes the fresh controller abort immediately (time `0`)
and `break`s the loop; otherwise a once-listener is registered on the
input, so the controller aborts the moment that input triggers — the
combined trigger time is the earliest over the inputs seen. -/
def combineLoop : List MSignal → Option Nat
  | [] => none
  | s :: rest =>
    if s.aborted then some 0
    else minTime s.triggerTime (combineLoop rest)

/-- Embeds `anySignal(signals)`: drop absent inputs
(`signals.filter(Boolean)`); with none present return `undefined`; with
exactly one present return it directly, unwrapped; otherwise return the
fresh controller signal driven by the listener loop. -/
def anySignal (signals : List (Option MSignal)) : Option MSignal :=
  let present := signals.filterMap id
  match present with
  | [] => none
  | [s] => some s
  | _ => some ⟨combineLoop present⟩

/-- Concrete stand-in for the host `JSON.parse` composed with the
controller's `status` field access, tabulated on the JSON documents
exercised in this development, each mapped exactly as `JSON.parse` maps
it: an object literal to its `status` field, a non-document to a parse
exception (`none`). -/
def decodeTest : String → Option AgentRun
  | "\x7b\x7d" => some ⟨none⟩
  | "\x7b\"status\": \"pending\"\x7d" => some ⟨some "pending"⟩
  | "\x7b\"status\": \"completed\"\x7d" => some ⟨some "completed"⟩
  | "\x7b\"status\": \"\"\x7d" => some ⟨some ""⟩
  | _ => none

/-- A successful `text/event-stream` response carrying the given
chunks, with `String`-typed validation payloads. -/
def sampleResp (chunks : List String) : MResponse String :=
  ⟨200, "text/event-stream", none, none, none, true, chunks⟩

/-- The `lastSeen` tracking restricted to its own component: the same
update the callback of `runStreamingAgentAndWait` performs on
`lastSeen` alone (non-empty data, `init` or `done` event, decode
succeeds: keep the decoded payload; otherwise keep the accumulator).
Folding it from `none` over a message list yields the last successfully
decoded eligible payload, or `none` when no message qualifies. -/
def updLast (decode : String → Option AgentRun) (acc : Option AgentRun)
    (m : SseMessage) : Option AgentRun :=
  if m.data = "" then acc
  else if m.event = some "init" || m.event = some "done" then
    match decode m.data with
    | none => acc
    | some parsed => some parsed
  else acc

/-- A buffer without a newline splits into no complete line and
itself as the remainder. -/
theorem splitLines_eq_nil_of_not_mem {l : List Char} (h : '\n' ∉ l) :
    splitLines l = ([], l) := by
  induction l with
  | nil => rfl
  | cons c cs ih =>
    have hc : c ≠ '\n' := fun hc => h (hc ▸ List.mem_cons_self c cs)
    have hcs : '\n' ∉ cs := fun hm => h (List.mem_cons_of_mem c hm)
    simp [splitLines, hc, ih hcs]

/-- The remainder left by `splitLines` holds no newline: the incomplete
trailing line carried to the next `feed` call. -/
theorem splitLines_snd_not_mem (l : List Char) : '\n' ∉ (splitLines l).2 := by
  induction l with
  | nil => simp [splitLines]
  | cons c cs ih =>
    by_cases hc : c = '\n'
    · subst hc; simpa [splitLines] using ih
    · simp only [splitLines, if_neg hc]
      cases hsp : splitLines cs with
      | mk ls r =>
        rw [hsp] at ih
        cases ls with
        | nil =>
          show '\n' ∉ c :: r
          simp only [List.mem_cons, not_or]
          exact ⟨fun h2 => hc h2.symm, ih⟩
        | cons l0 ls0 => exact ih

/-- A buffer that splits into no complete line is its own remainder. -/
theorem splitLines_fst_eq_nil {l : List Char} (h : (splitLines l).1 = []) :
    (splitLines l).2 = l := by
  induction l with
  | nil => rfl
  | cons c cs ih =>
    by_cases hc : c = '\n'
    · subst hc; simp [splitLines] at h
    · simp only [splitLines, if_neg hc] at h ⊢
      cases hsp : splitLines cs with
      | mk ls r =>
        rw [hsp] at h ih
        cases ls with
        | nil =>
          show c :: r = c :: cs
          have h4 : r = cs := ih rfl
          rw [h4]
        | cons l0 ls0 =>
          exact absurd (show (c :: l0) :: ls0 = ([] : List (List Char)) from h)
            (List.cons_ne_nil _ _)

/-- Chunk locality of line extraction: splitting the concatenation of
two buffers extracts first the complete lines of the first buffer, then
those of its remainder followed by the second buffer. -/
theorem splitLines_append (a b : List Char) :
    splitLines (a ++ b) =
      ((splitLines a).1 ++ (splitLines ((splitLines a).2 ++ b)).1,
        (splitLines ((splitLines a).2 ++ b)).2) := by
  induction a with
  | nil => simp [splitLines]
  | cons c cs ih =>
    by_cases hc : c = '\n'
    · subst hc
      simp [splitLines, ih]
    · cases hsp : splitLines cs with
      | mk ls r =>
        rw [hsp] at ih
        cases ls with
        | nil =>
          have h2 : r = cs := by
            have h3 := splitLines_fst_eq_nil (l := cs) (by rw [hsp])
            rw [hsp] at h3; exact h3
          subst h2
          simp only [List.cons_append, splitLines, if_neg hc, hsp]
          rfl
        | cons l0 ls0 =>
          simp only [List.cons_append, splitLines, if_neg hc, hsp]
          rw [show List.append cs b = cs ++ b from rfl, ih]
          rfl

/-- Processing a concatenation of line lists composes the state threads
and concatenates the emitted messages. -/
theorem processLines_append (ls1 ls2 : List (List Char)) (ev : Option String)
    (ds : List String) :
    processLines (ls1 ++ ls2) ev ds =
      ((processLines ls2 (processLines ls1 ev ds).1 (processLines ls1 ev ds).2.1).1,
       (processLines ls2 (processLines ls1 ev ds).1 (processLines ls1 ev ds).2.1).2.1,
       (processLines ls1 ev ds).2.2 ++
         (processLines ls2 (processLines ls1 ev ds).1 (processLines ls1 ev ds).2.1).2.2) := by
  induction ls1 generalizing ev ds with
  | nil => simp [processLines]
  | cons l ls ih => simp [processLines, ih, List.append_assoc]

/-- Feeding the concatenation of two chunks equals feeding them one
after the other: the state agrees and the messages concatenate. -/
theorem feed_append (st : SseParserState) (c1 c2 : String) :
    feed st (c1 ++ c2) =
      ((feed (feed st c1).1 c2).1, (feed st c1).2 ++ (feed (feed st c1).1 c2).2) := by
  simp only [feed, String.data_append, ← List.append_assoc, splitLines_append
    (st.buffer ++ c1.data) c2.data, processLines_append]

/-- Feeding the empty chunk to a state whose buffer holds no newline
changes nothing and emits nothing. -/
theorem feed_empty (st : SseParserState) (h : '\n' ∉ st.buffer) :
    feed st "" = (st, []) := by
  simp only [feed, show ("" : String).data = [] from rfl, List.append_nil,
    splitLines_eq_nil_of_not_mem h, processLines]

/-- The buffer left by any `feed` call holds no newline. -/
theorem feed_buffer_not_mem (st : SseParserState) (c : String) :
    '\n' ∉ (feed st c).1.buffer := by
  simpa [feed] using splitLines_snd_not_mem (st.buffer ++ c.data)

theorem stringJoin_cons (c : String) (cs : List String) :
    String.join (c :: cs) = c ++ String.join cs := by
  simp only [String.join_eq, List.map_cons, List.flatten_cons]
  cases c with
  | mk d => rfl

/-- Feeding chunks one by one from a newline-free buffer is feeding
their concatenation at once. -/
theorem feedMany_eq_feed_join (st : SseParserState) (h : '\n' ∉ st.buffer)
    (chunks : List String) :
    feedMany st chunks = feed st (String.join chunks) := by
  induction chunks generalizing st with
  | nil =>
    show (st, []) = _
    rw [show String.join [] = "" from rfl, feed_empty st h]
  | cons c cs ih =>
    show ((feedMany (feed st c).1 cs).1, (feed st c).2 ++ (feedMany (feed st c).1 cs).2) = _
    rw [ih (feed st c).1 (feed_buffer_not_mem st c), stringJoin_cons, feed_append]

/-- C1 counterexample: feeding the single chunk `"event: done\ndata:
{}"` (no trailing newline) and then calling `end()` does NOT emit
`{event: "done", data: "{}"}`: the unterminated trailing `data` line is
still sitting in the raw buffer when `end()` runs, and `end()` (which
is `dispatch`) never parses the buffer, so the flushed message carries
empty data. -/
theorem C1_counterexample :
    (feed initState "event: done\ndata: \x7b\x7d").2 ++
        (sseEnd (feed initState "event: done\ndata: \x7b\x7d").1).2 ≠
      [⟨some "done", "\x7b\x7d"⟩] := by decide

/-- C1 (amended): after feeding the single chunk `"event: done\ndata:
{}"`, calling `end()` emits exactly one message `{event: "done", data:
""}` — `end()` dispatches only the fields accumulated from complete
lines, and the unterminated trailing line `"data: {}"` stays unparsed
in the buffer — and calling `end()` a second time afterwards emits
nothing. -/
theorem C1_flush_on_end :
    (feed initState "event: done\ndata: \x7b\x7d").2 ++
        (sseEnd (feed initState "event: done\ndata: \x7b\x7d").1).2 =
      [⟨some "done", ""⟩] ∧
    (sseEnd (feed initState "event: done\ndata: \x7b\x7d").1).1.buffer =
      "data: \x7b\x7d".data ∧
    (sseEnd (sseEnd (feed initState "event: done\ndata: \x7b\x7d").1).1).2 = [] := by
  exact ⟨by decide, by decide, by decide⟩

/-- C2: for every SSE input text and every way of splitting it into an
ordered sequence of chunks, feeding the chunks one by one to a fresh
parser and then calling `end()` emits exactly the same ordered sequence
of messages as feeding the whole text as one chunk and then calling
`end()`. -/
theorem C2_chunk_boundary_invariance (chunks : List String) :
    runParser chunks = runParser [String.join chunks] := by
  unfold runParser
  rw [feedMany_eq_feed_join initState (by simp [initState]) chunks]
  simp [feedMany]

/-- C3 counterexample: the input `"event:\n"` sets the pending event
name (to the empty string), yet the complete empty line fed next emits
no message — refuting "emits a message exactly at each complete empty
line at which an event name has been set or at least one data line has
been accumulated". -/
theorem C3_counterexample :
    (feed initState "event:\n").1.eventName = some "" ∧
    (feed (feed initState "event:\n").1 "\n").2 = [] := by
  exact ⟨by decide, by decide⟩

/-- C3 (amended): a complete line emits a message exactly when it is
empty (after CR-stripping) and either a non-empty event name is pending
or at least one data line has been accumulated (an empty line where
the event name is unset or empty and no data is accumulated emits
nothing); the emitted message's data is the newline-join of the
accumulated data values in arrival order and its event is the pending
event name; an `event` field line overwrites the pending name with its
value and a `data` field line appends its value; and the input
`"event: x\ndata: a\ndata: b\n\n"` yields exactly one message
`{event: "x", data: "a\nb"}`. -/
theorem C3_dispatch_on_blank_line :
    (∀ ev ds, (processLine [] ev ds).2.2 ≠ [] ↔
      (jsFalsyStr ev = false ∨ ds ≠ [])) ∧
    (∀ line ev ds, stripCR line ≠ [] → (processLine line ev ds).2.2 = []) ∧
    (∀ ev ds, (jsFalsyStr ev = false ∨ ds ≠ []) →
      processLine [] ev ds = (none, [], [⟨ev, String.intercalate "\n" ds⟩])) ∧
    (∀ (v : String) ev ds, v.data.getLast? ≠ some '\r' →
      processLine ("event: ".data ++ v.data) ev ds = (some v, ds, [])) ∧
    (∀ (v : String) ev ds, v.data.getLast? ≠ some '\r' →
      processLine ("data: ".data ++ v.data) ev ds = (ev, ds ++ [v], [])) ∧
    runParser ["event: x\ndata: a\ndata: b\n\n"] = [⟨some "x", "a\nb"⟩] := by
  refine ⟨?_, ?_, ?_, ?_, ?_, by decide⟩
  · intro ev ds
    by_cases h1 : jsFalsyStr ev <;> by_cases h2 : ds = [] <;>
      simp [processLine, stripCR, dispatch, h1, h2]
  · intro line ev ds h
    simp only [processLine]
    rw [if_neg (by simpa [List.isEmpty_iff] using h)]
    by_cases hh : (stripCR line).head? = some ':'
    · rw [if_pos hh]
    · rw [if_neg hh]
      split <;> [rfl; skip]
      split <;> rfl
  · intro ev ds h
    have hg : ¬(jsFalsyStr ev && ds.isEmpty) = true := by
      rcases h with h | h
      · simp [h]
      · simp [List.isEmpty_iff, h]
    simp [processLine, stripCR, dispatch, hg]
  · intro v ev ds h
    have hstrip : stripCR ("event: ".data ++ v.data) = "event: ".data ++ v.data := by
      unfold stripCR
      rw [if_neg]
      rw [List.getLast?_append]
      cases hgl : v.data.getLast? with
      | none => decide
      | some c =>
        intro hcon
        exact h (hgl.trans hcon)
    simp only [processLine]
    rw [hstrip]
    rfl
  · intro v ev ds h
    have hstrip : stripCR ("data: ".data ++ v.data) = "data: ".data ++ v.data := by
      unfold stripCR
      rw [if_neg]
      rw [List.getLast?_append]
      cases hgl : v.data.getLast? with
      | none => decide
      | some c =>
        intro hcon
        exact h (hgl.trans hcon)
    simp only [processLine]
    rw [hstrip]
    rfl

/-- C3 witness: the amended dispatch characterization applied at
concrete inputs, each hypothesis discharged by evaluation. -/
theorem C3_dispatch_on_blank_line_witness :
    processLine [] (some "x") ["a"] = (none, [], [⟨some "x", "a"⟩]) ∧
    processLine ("event: ".data ++ "x".data) none [] = (some "x", [], []) ∧
    processLine ("data: ".data ++ "a".data) none [] = (none, ["a"], []) := by
  refine ⟨?_, ?_, ?_⟩
  · have h := C3_dispatch_on_blank_line.2.2.1 (some "x") ["a"] (by decide)
    simpa using h
  · exact C3_dispatch_on_blank_line.2.2.2.1 "x" none [] (by decide)
  · exact C3_dispatch_on_blank_line.2.2.2.2.1 "a" none [] (by decide)

/-- The callback updates `lastSeen` exactly as `updLast` does. -/
theorem handleMsg_snd (decode : String → Option AgentRun)
    (st : Option AgentRun × Option AgentRun) (m : SseMessage) :
    (handleMsg decode st m).2 = updLast decode st.2 m := by
  unfold handleMsg updLast
  split
  · rfl
  · split
    · split <;> rfl
    · rfl

/-- Folding the callback over a message list updates `lastSeen` as the
`updLast` fold does. -/
theorem foldl_handleMsg_snd (decode : String → Option AgentRun)
    (msgs : List SseMessage) (st : Option AgentRun × Option AgentRun) :
    (msgs.foldl (handleMsg decode) st).2 = msgs.foldl (updLast decode) st.2 := by
  induction msgs generalizing st with
  | nil => rfl
  | cons m ms ih => simp only [List.foldl_cons, ih, handleMsg_snd]

/-- The callback never unsets a captured `final` payload. -/
theorem handleMsg_fst_isSome (decode : String → Option AgentRun)
    (st : Option AgentRun × Option AgentRun) (m : SseMessage)
    (h : st.1.isSome = true) : (handleMsg decode st m).1.isSome = true := by
  unfold handleMsg
  split
  · exact h
  · split
    · split
      · exact h
      · split
        · rfl
        · exact h
    · exact h

/-- A captured `final` payload survives any further messages. -/
theorem foldl_handleMsg_fst_isSome (decode : String → Option AgentRun)
    (msgs : List SseMessage) (st : Option AgentRun × Option AgentRun)
    (h : st.1.isSome = true) :
    ((msgs.foldl (handleMsg decode) st).1).isSome = true := by
  induction msgs generalizing st with
  | nil => exact h
  | cons m ms ih => exact ih _ (handleMsg_fst_isSome decode st m h)

/-- Once `final` is captured, the read loop stops: no chunk is read. -/
theorem readLoop_of_isSome (decode : String → Option AgentRun)
    (chunks : List String) (pst : SseParserState)
    (st : Option AgentRun × Option AgentRun) (h : st.1.isSome = true) :
    readLoop decode chunks pst st = (pst, st, chunks) := by
  cases chunks with
  | nil => rfl
  | cons c cs => unfold readLoop; rw [if_pos h]

/-- When `final` is still unset at the end of the read loop, every
chunk was read, the parser state is the state after feeding them all,
and the tracking pair is the callback fold over all emitted messages. -/
theorem readLoop_complete (decode : String → Option AgentRun)
    (chunks : List String) (pst : SseParserState)
    (st : Option AgentRun × Option AgentRun) (h0 : st.1 = none)
    (hend : ((readLoop decode chunks pst st).2.1).1 = none) :
    readLoop decode chunks pst st =
      ((feedMany pst chunks).1,
        (feedMany pst chunks).2.foldl (handleMsg decode) st, []) := by
  induction chunks generalizing pst st with
  | nil => rfl
  | cons c cs ih =>
    have hunf : readLoop decode (c :: cs) pst st =
        readLoop decode cs (feed pst c).1
          ((feed pst c).2.foldl (handleMsg decode) st) := by
      show (if st.1.isSome = true then (pst, st, c :: cs)
        else readLoop decode cs (feed pst c).1
          ((feed pst c).2.foldl (handleMsg decode) st)) = _
      rw [if_neg (by simp [h0])]
    rw [hunf] at hend ⊢
    have h1 : (((feed pst c).2.foldl (handleMsg decode) st).1) = none := by
      cases hq : (((feed pst c).2.foldl (handleMsg decode) st).1) with
      | none => rfl
      | some p =>
        exfalso
        rw [readLoop_of_isSome decode cs _ _ (by rw [hq]; rfl)] at hend
        rw [hq] at hend
        exact Option.noConfusion hend
    rw [ih _ _ h1 hend]
    show _ = ((feedMany (feed pst c).1 cs).1,
      (((feed pst c).2 ++ (feedMany (feed pst c).1 cs).2).foldl
        (handleMsg decode) st), [])
    rw [List.foldl_append]

/-- When no `done` payload is ever captured, the final `lastSeen` is
the `updLast` fold over the full parser session's messages: the last
successfully decoded eligible payload. -/
theorem streamState_of_final_none (decode : String → Option AgentRun)
    (chunks : List String) (h : (streamState decode chunks).1 = none) :
    (streamState decode chunks).2 =
      (runParser chunks).foldl (updLast decode) none := by
  have hr : ((readLoop decode chunks initState (none, none)).2.1).1 = none := by
    cases hq : ((readLoop decode chunks initState (none, none)).2.1).1 with
    | none => rfl
    | some p =>
      exfalso
      have hs := foldl_handleMsg_fst_isSome decode
        ((sseEnd (readLoop decode chunks initState (none, none)).1).2)
        ((readLoop decode chunks initState (none, none)).2.1) (by rw [hq]; rfl)
      rw [show (((sseEnd (readLoop decode chunks initState (none, none)).1).2.foldl
        (handleMsg decode) ((readLoop decode chunks initState (none, none)).2.1)).1)
          = none from h] at hs
      exact Bool.noConfusion hs
  have hc := readLoop_complete decode chunks initState (none, none) rfl hr
  show (((sseEnd (readLoop decode chunks initState (none, none)).1).2.foldl
    (handleMsg decode) ((readLoop decode chunks initState (none, none)).2.1)).2) = _
  rw [hc, foldl_handleMsg_snd, foldl_handleMsg_snd]
  unfold runParser
  rw [List.foldl_append]

/-- A signal is aborted at combination time exactly when its trigger
time is the combination instant. -/
theorem aborted_iff_zero (s : MSignal) :
    s.aborted = true ↔ s.triggerTime = some 0 := by
  unfold MSignal.aborted MSignal.abortedAt
  cases ht : s.triggerTime with
  | none => simp
  | some t0 => simp [Nat.le_zero]

/-- Abortion of the minimum of two trigger times is the disjunction of
the abortions. -/
theorem minTime_abortedAt (a b : Option Nat) (t : Nat) :
    MSignal.abortedAt ⟨minTime a b⟩ t =
      (MSignal.abortedAt ⟨a⟩ t || MSignal.abortedAt ⟨b⟩ t) := by
  cases a <;> cases b <;> simp [minTime, MSignal.abortedAt, min_le_iff]

/-- The controller built by the listener loop aborts at time `t`
exactly when some input signal has aborted by time `t`. -/
theorem combineLoop_abortedAt (l : List MSignal) (t : Nat) :
    MSignal.abortedAt ⟨combineLoop l⟩ t =
      l.any (fun s => s.abortedAt t) := by
  induction l with
  | nil => rfl
  | cons s rest ih =>
    by_cases hs : s.aborted = true
    · have h0 : s.triggerTime = some 0 := (aborted_iff_zero s).mp hs
      simp [combineLoop, hs, MSignal.abortedAt, h0]
    · simp only [combineLoop, hs, if_neg, Bool.false_eq_true, not_false_eq_true,
        if_neg, List.any_cons]
      rw [minTime_abortedAt, ih]

/-- C4 counterexample: a stream emitting only `init` with
`{"status": ""}` and then closing has a last-seen decoded payload whose
status field is present and not equal to `"pending"`, yet the
controller fails with the stream-ended error — the guard additionally
requires the status to be truthy, and the empty string is falsy in
JavaScript. -/
theorem C4_counterexample :
    (streamState decodeTest ["event: init\ndata: \x7b\"status\": \"\"\x7d\n\n"]).1 =
      none ∧
    (streamState decodeTest ["event: init\ndata: \x7b\"status\": \"\"\x7d\n\n"]).2 =
      some ⟨some ""⟩ ∧
    (AgentRun.mk (some "")).status.isSome = true ∧
    (AgentRun.mk (some "")).status ≠ some "pending" ∧
    (runStreamingAgentAndWait decodeTest "u" 60000 false
        (sampleResp ["event: init\ndata: \x7b\"status\": \"\"\x7d\n\n"])).result =
      .error .streamEnded := by
  exact ⟨by decide, by decide, by decide, by decide, rfl⟩

/-- C4 (amended): when the stream ends without a `done` payload having
been captured, the run succeeds with the last successfully decoded
`init`/`done` payload if and only if such a payload exists and its
status field is present, truthy (non-empty) and not equal to
`"pending"`; otherwise it fails with the stream-ended error; in
particular a stream emitting only `init` with `{"status": "pending"}`
and then closing fails. -/
theorem C4_pending_status_rejection {V : Type} (decode : String → Option AgentRun)
    (url : String) (tms : Nat) (resp : MResponse V)
    (hok : responseOk resp.status = true)
    (hjson : strIncludes resp.contentType "application/json" = false)
    (hbody : resp.hasBody = true)
    (hfin : (streamState decode resp.chunks).1 = none) :
    (∀ p, (runStreamingAgentAndWait decode url tms false resp).result =
        .ok p ↔
      ((runParser resp.chunks).foldl (updLast decode) none = some p ∧
        statusTruthy p = true ∧ p.status ≠ some "pending")) ∧
    ((∀ p, (runParser resp.chunks).foldl (updLast decode) none = some p →
        ¬(statusTruthy p = true ∧ p.status ≠ some "pending")) →
      (runStreamingAgentAndWait decode url tms false resp).result =
        .error .streamEnded) := by
  have hres : (runStreamingAgentAndWait decode url tms false resp).result =
      tryStreaming decode url resp := by
    unfold runStreamingAgentAndWait
    cases htr : tryStreaming decode url resp with
    | ok v => simp [htr]
    | error e => simp [htr]
  have htry : tryStreaming decode url resp =
      resolveStream (streamState decode resp.chunks) := by
    unfold tryStreaming
    rw [hok, hjson, hbody]
    rfl
  have hlast := streamState_of_final_none decode resp.chunks hfin
  have hresolve : resolveStream (V := V) (streamState decode resp.chunks) =
      match (runParser resp.chunks).foldl (updLast decode) none with
      | some p =>
        if statusTruthy p && p.status != some "pending" then .ok p
        else .error .streamEnded
      | none => .error .streamEnded := by
    unfold resolveStream
    rw [hfin, hlast]
  cases hfold : (runParser resp.chunks).foldl (updLast decode) none with
  | none =>
    have heq : (runStreamingAgentAndWait decode url tms false resp).result =
        Except.error RunError.streamEnded := by
      rw [hres, htry, hresolve, hfold]
    constructor
    · intro p
      rw [heq]
      constructor
      · intro hcon; exact absurd hcon (by simp)
      · rintro ⟨h1, -⟩; exact absurd h1 (by simp)
    · intro _; rw [heq]
  | some p0 =>
    have heq : (runStreamingAgentAndWait decode url tms false resp).result =
        (if (statusTruthy p0 && p0.status != some "pending") = true
          then Except.ok p0 else Except.error RunError.streamEnded) := by
      rw [hres, htry, hresolve, hfold]
    by_cases hcond : (statusTruthy p0 && p0.status != some "pending") = true
    · have hc2 : statusTruthy p0 = true ∧ p0.status ≠ some "pending" := by
        have h2 := hcond
        simp only [Bool.and_eq_true, bne_iff_ne] at h2
        exact h2
      rw [if_pos hcond] at heq
      constructor
      · intro p
        rw [heq]
        constructor
        · intro hok2
          have hp : p0 = p := Except.ok.inj hok2
          exact ⟨by rw [hp], hp ▸ hc2.1, hp ▸ hc2.2⟩
        · rintro ⟨h1, -, -⟩
          have hp : p0 = p := Option.some.inj h1
          rw [hp]
      · intro hall
        exact absurd hc2 (hall p0 rfl)
    · rw [if_neg hcond] at heq
      constructor
      · intro p
        rw [heq]
        constructor
        · intro hcon; exact absurd hcon (by simp)
        · rintro ⟨h1, h2, h3⟩
          have hp : p0 = p := Option.some.inj h1
          subst hp
          exact absurd (by simp [h2, bne_iff_ne, h3] :
            (statusTruthy p0 && p0.status != some "pending") = true) hcond
      · intro _
        rw [heq]

/-- C4 witness: the amended resolution rule applied to the concrete
pending-only stream, every hypothesis discharged by evaluation: the
run resolves to the stream-ended error. -/
theorem C4_pending_status_rejection_witness :
    (runStreamingAgentAndWait decodeTest "u" 60000 false
        (sampleResp ["event: init\ndata: \x7b\"status\": \"pending\"\x7d\n\n"])).result =
      .error .streamEnded := by
  refine (C4_pending_status_rejection decodeTest "u" 60000
    (sampleResp ["event: init\ndata: \x7b\"status\": \"pending\"\x7d\n\n"])
    (by decide) (by decide) (by decide) (by decide)).2 ?_
  intro p hp
  have hval : (runParser ["event: init\ndata: \x7b\"status\": \"pending\"\x7d\n\n"]).foldl
      (updLast decodeTest) none = some ⟨some "pending"⟩ := by decide
  have hp2 : AgentRun.mk (some "pending") = p :=
    Option.some.inj ((hval.symm.trans hp))
  subst hp2
  rintro ⟨-, h2⟩
  exact h2 rfl

/-- C5: a failure of the run is re-surfaced as the timeout error naming
the configured budget (default 60000 ms) exactly when the timeout flag
was set by the timer callback; with the flag unset every error
propagates unchanged (and the try body never produces a timeout error
itself); the timer is cleared on every outcome. -/
theorem C5_timeout_translation {V : Type} (decode : String → Option AgentRun)
    (url : String) (tmsOpt : Option Nat) (timedOut : Bool) (resp : MResponse V) :
    ((runStreamingAgentAndWait decode url (resolveTimeoutMs tmsOpt) timedOut
        resp).timerCleared = true) ∧
    (∀ e, tryStreaming decode url resp = .error e →
      (runStreamingAgentAndWait decode url (resolveTimeoutMs tmsOpt) timedOut
          resp).result =
        if timedOut then .error (.timeout (resolveTimeoutMs tmsOpt))
        else .error e) ∧
    (timedOut = false →
      (runStreamingAgentAndWait decode url (resolveTimeoutMs tmsOpt) timedOut
          resp).result = tryStreaming decode url resp) ∧
    (∀ t, tryStreaming decode url resp ≠ .error (.timeout t)) ∧
    resolveTimeoutMs none = 60000 := by
  refine ⟨rfl, ?_, ?_, ?_, rfl⟩
  · intro e he
    unfold runStreamingAgentAndWait
    rw [he]
  · intro ht
    subst ht
    unfold runStreamingAgentAndWait
    cases htr : tryStreaming decode url resp with
    | ok v => simp [htr]
    | error e => simp [htr]
  · intro t
    unfold tryStreaming
    split
    · split <;> simp
    · split
      · split <;> simp
      · split
        · simp
        · unfold resolveStream
          split
          · simp
          · split
            · split <;> simp
            · simp

/-- C5 witness: with the timeout flag set, a concrete failing run
resolves to the timeout error naming the default budget. -/
theorem C5_timeout_translation_witness :
    (runStreamingAgentAndWait decodeTest "u" (resolveTimeoutMs none) true
        (sampleResp [])).result = .error (.timeout 60000) := by
  have h := (C5_timeout_translation decodeTest "u" none true
    (sampleResp [])).2.1 .streamEnded rfl
  simpa using h

/-- C6 counterexample: a single chunk containing two `done` messages —
the controller reads no further chunks once a `done` payload is
captured, but each decodable `done` message in the chunk already fed
overwrites `final`, so the run resolves with the SECOND done payload,
not the first. -/
theorem C6_counterexample :
    runParser ["event: done\ndata: \x7b\"status\": \"pending\"\x7d\n\nevent: done\ndata: \x7b\"status\": \"completed\"\x7d\n\n"] =
      [⟨some "done", "\x7b\"status\": \"pending\"\x7d"⟩,
        ⟨some "done", "\x7b\"status\": \"completed\"\x7d"⟩] ∧
    decodeTest "\x7b\"status\": \"pending\"\x7d" = some ⟨some "pending"⟩ ∧
    (runStreamingAgentAndWait decodeTest "u" 60000 false
        (sampleResp ["event: done\ndata: \x7b\"status\": \"pending\"\x7d\n\nevent: done\ndata: \x7b\"status\": \"completed\"\x7d\n\n"])).result =
      .ok ⟨some "completed"⟩ ∧
    AgentRun.mk (some "completed") ≠ ⟨some "pending"⟩ := by
  exact ⟨by decide, by decide, rfl, by decide⟩

/-- C6 (amended): once a `done` payload has been captured the
controller reads no further chunks from the response body and resolves
with the captured payload; however every decodable `done` message
parsed from the chunks already fed (or flushed by `end()`) overwrites
the captured payload, so the run resolves with the LAST `done` payload
among the parsed messages, not necessarily the first. -/
theorem C6_terminal_short_circuit :
    (∀ (decode : String → Option AgentRun) chunks pst
      (st : Option AgentRun × Option AgentRun), st.1.isSome = true →
      readLoop decode chunks pst st = (pst, st, chunks)) ∧
    (∀ (decode : String → Option AgentRun) c cs pst
      (st : Option AgentRun × Option AgentRun), st.1 = none →
      (((feed pst c).2.foldl (handleMsg decode) st).1).isSome = true →
      readLoop decode (c :: cs) pst st =
        ((feed pst c).1, (feed pst c).2.foldl (handleMsg decode) st, cs)) ∧
    (∀ (V : Type) (f : AgentRun) (l : Option AgentRun),
      @resolveStream V (some f, l) = .ok f) ∧
    (runStreamingAgentAndWait decodeTest "u" 60000 false
        (sampleResp ["event: done\ndata: \x7b\"status\": \"pending\"\x7d\n\nevent: done\ndata: \x7b\"status\": \"completed\"\x7d\n\n"])).result =
      .ok ⟨some "completed"⟩ := by
  refine ⟨readLoop_of_isSome, ?_, fun V f l => rfl, rfl⟩
  intro decode c cs pst st h0 h1
  have hunf : readLoop decode (c :: cs) pst st =
      readLoop decode cs (feed pst c).1
        ((feed pst c).2.foldl (handleMsg decode) st) := by
    show (if st.1.isSome = true then (pst, st, c :: cs)
      else readLoop decode cs (feed pst c).1
        ((feed pst c).2.foldl (handleMsg decode) st)) = _
    rw [if_neg (by simp [h0])]
  rw [hunf, readLoop_of_isSome decode cs _ _ h1]

/-- C6 witness: the one-chunk short-circuit applied at a concrete
stream — the second chunk is returned unread. -/
theorem C6_terminal_short_circuit_witness :
    readLoop decodeTest ["event: done\ndata: \x7b\x7d\n\n", "ignored"] initState
        (none, none) =
      ((feed initState "event: done\ndata: \x7b\x7d\n\n").1,
        (feed initState "event: done\ndata: \x7b\x7d\n\n").2.foldl
          (handleMsg decodeTest) (none, none),
        ["ignored"]) := by
  exact C6_terminal_short_circuit.2.1 decodeTest "event: done\ndata: \x7b\x7d\n\n"
    ["ignored"] initState (none, none) rfl (by decide)

/-- C7: `anySignal` returns nothing when no input signal is present;
with exactly one present it returns that signal itself, unwrapped; with
two or more it returns a combined signal that is aborted at any time
`t` exactly when some input has aborted by `t` — in particular it is
already aborted at combination time when some input is, and it triggers
as soon as the earliest input triggers. -/
theorem C7_anySignal_combination :
    (∀ signals, signals.filterMap id = ([] : List MSignal) →
      anySignal signals = none) ∧
    (∀ signals s, signals.filterMap id = [s] → anySignal signals = some s) ∧
    (∀ signals s0 s1 rest, signals.filterMap id = s0 :: s1 :: rest →
      ∃ c, anySignal signals = some c ∧
        c.aborted = (s0 :: s1 :: rest).any MSignal.aborted ∧
        (∀ t, c.abortedAt t =
          (s0 :: s1 :: rest).any (fun x => x.abortedAt t))) := by
  refine ⟨?_, ?_, ?_⟩
  · intro signals h
    unfold anySignal
    rw [h]
  · intro signals s h
    unfold anySignal
    rw [h]
  · intro signals s0 s1 rest h
    refine ⟨⟨combineLoop (s0 :: s1 :: rest)⟩, ?_, ?_, ?_⟩
    · unfold anySignal
      rw [h]
    · exact combineLoop_abortedAt (s0 :: s1 :: rest) 0
    · exact fun t => combineLoop_abortedAt (s0 :: s1 :: rest) t

/-- C7 witness: the combination rule applied at two concrete present
signals (one absent input dropped): the combined signal is not aborted
at combination time and becomes aborted at the earlier trigger time. -/
theorem C7_anySignal_combination_witness :
    ∃ c, anySignal [some ⟨some 5⟩, none, some ⟨some 3⟩] = some c ∧
      c.aborted = ([⟨some 5⟩, ⟨some 3⟩] : List MSignal).any MSignal.aborted ∧
      (∀ t, c.abortedAt t =
        ([⟨some 5⟩, ⟨some 3⟩] : List MSignal).any (fun x => x.abortedAt t)) := by
  exact C7_anySignal_combination.2.2 [some ⟨some 5⟩, none, some ⟨some 3⟩]
    ⟨some 5⟩ ⟨some 3⟩ [] (by decide)

/-- C8: a success-status response whose content type indicates JSON is
decoded and returned directly as the terminal payload — a non-error
completion path — and the outcome is independent of the streamed chunks
and of the SSE payload decoder: no SSE parsing is performed. -/
theorem C8_json_short_circuit {V : Type} (decode : String → Option AgentRun)
    (url : String) (resp : MResponse V) (v : AgentRun)
    (hok : responseOk resp.status = true)
    (hjson : strIncludes resp.contentType "application/json" = true)
    (hbody : resp.jsonBody = some v) :
    (∀ tms timedOut,
      (runStreamingAgentAndWait decode url tms timedOut resp).result = .ok v) ∧
    (∀ (chunks2 : List String) (decode2 : String → Option AgentRun),
      tryStreaming decode url resp =
        tryStreaming decode2 url
          ⟨resp.status, resp.contentType, resp.textResult, resp.validationJson,
            resp.jsonBody, resp.hasBody, chunks2⟩) := by
  have htry : ∀ (decode2 : String → Option AgentRun) (chunks2 : List String),
      tryStreaming decode2 url
        ⟨resp.status, resp.contentType, resp.textResult, resp.validationJson,
          resp.jsonBody, resp.hasBody, chunks2⟩ = .ok v := by
    intro decode2 chunks2
    unfold tryStreaming
    rw [show (⟨resp.status, resp.contentType, resp.textResult,
      resp.validationJson, resp.jsonBody, resp.hasBody, chunks2⟩ :
        MResponse V).status = resp.status from rfl, hok]
    rw [show (⟨resp.status, resp.contentType, resp.textResult,
      resp.validationJson, resp.jsonBody, resp.hasBody, chunks2⟩ :
        MResponse V).contentType = resp.contentType from rfl, hjson]
    rw [show (⟨resp.status, resp.contentType, resp.textResult,
      resp.validationJson, resp.jsonBody, resp.hasBody, chunks2⟩ :
        MResponse V).jsonBody = resp.jsonBody from rfl, hbody]
    rfl
  have htry0 : tryStreaming decode url resp = .ok v := by
    unfold tryStreaming
    rw [hok, hjson, hbody]
    rfl
  constructor
  · intro tms timedOut
    unfold runStreamingAgentAndWait
    rw [htry0]
  · intro chunks2 decode2
    rw [htry0, htry decode2 chunks2]

/-- C8 witness: a concrete JSON response resolves directly with the
decoded body. -/
theorem C8_json_short_circuit_witness :
    (runStreamingAgentAndWait decodeTest "u" 60000 false
        (⟨200, "application/json", none, none, some ⟨some "completed"⟩, true,
          ["event: done\ndata: \x7b\x7d\n\n"]⟩ : MResponse String)).result =
      .ok ⟨some "completed"⟩ := by
  exact (C8_json_short_circuit decodeTest "u"
    (⟨200, "application/json", none, none, some ⟨some "completed"⟩, true,
      ["event: done\ndata: \x7b\x7d\n\n"]⟩ : MResponse String)
    ⟨some "completed"⟩ (by decide) (by decide) rfl).1 60000 false

/-- C9: a non-success status fails with the validation error carrying
the best-effort decoded validation payload when the status is 422, and
with the status error carrying the status code, the method POST, the
request URL and the best-effort response text otherwise; the
best-effort decodes are optional values, so a host decode failure
(`none`) yields the same error shape with the field simply absent. -/
theorem C9_error_status {V : Type} (decode : String → Option AgentRun)
    (url : String) (tms : Nat) (resp : MResponse V)
    (hnok : responseOk resp.status = false) :
    (resp.status = 422 →
      (runStreamingAgentAndWait decode url tms false resp).result =
        .error (.validation resp.status "POST" url resp.textResult
          resp.validationJson)) ∧
    (resp.status ≠ 422 →
      (runStreamingAgentAndWait decode url tms false resp).result =
        .error (.statusError resp.status "POST" url resp.textResult)) := by
  constructor
  · intro h422
    unfold runStreamingAgentAndWait
    rw [show tryStreaming decode url resp =
      .error (.validation resp.status "POST" url resp.textResult
        resp.validationJson) from by
      unfold tryStreaming
      rw [hnok, if_pos h422]
      rfl]
    rfl
  · intro h422
    unfold runStreamingAgentAndWait
    rw [show tryStreaming decode url resp =
      .error (.statusError resp.status "POST" url resp.textResult) from by
      unfold tryStreaming
      rw [hnok, if_neg h422]
      rfl]
    rfl

/-- C9 witness: concrete 404 and 422 responses with undecodable bodies
produce the status and validation errors with absent optional fields. -/
theorem C9_error_status_witness :
    (runStreamingAgentAndWait decodeTest "u" 60000 false
        (⟨404, "text/plain", none, none, none, true, []⟩ :
          MResponse String)).result =
      .error (.statusError 404 "POST" "u" none) ∧
    (runStreamingAgentAndWait decodeTest "u" 60000 false
        (⟨422, "text/plain", some "bad", none, none, true, []⟩ :
          MResponse String)).result =
      .error (.validation 422 "POST" "u" (some "bad") none) := by
  constructor
  · exact (C9_error_status decodeTest "u" 60000
      (⟨404, "text/plain", none, none, none, true, []⟩ : MResponse String)
      (by decide)).2 (by decide)
  · exact (C9_error_status decodeTest "u" 60000
      (⟨422, "text/plain", some "bad", none, none, true, []⟩ : MResponse String)
      (by decide)).1 rfl

/-- C10: a recognized message whose data string is empty is ignored by
the controller callback — it changes neither `final` nor `lastSeen` —
and a stream emitting only `"event: done\ndata:\n\n"` then closing
fails with the stream-ended error instead of succeeding. -/
theorem C10_empty_data_ignored (decode : String → Option AgentRun)
    (st : Option AgentRun × Option AgentRun) (msg : SseMessage)
    (h : msg.data = "") :
    handleMsg decode st msg = st ∧
    (runStreamingAgentAndWait decodeTest "u" 60000 false
        (sampleResp ["event: done\ndata:\n\n"])).result =
      .error .streamEnded := by
  constructor
  · unfold handleMsg
    rw [if_pos h]
  · rfl

/-- C10 witness: the empty-data rule applied at a concrete `done`
message with empty data. -/
theorem C10_empty_data_ignored_witness :
    handleMsg decodeTest (none, none) ⟨some "done", ""⟩ = (none, none) :=
  (C10_empty_data_ignored decodeTest (none, none) ⟨some "done", ""⟩ rfl).1

end Seclai
